import Mathlib

/-!
Verification of the ADAM-6051 scale logger / protocol discovery core.

The definitions below are a shallow embedding of the Python source:
`adam_scale_discovery.py` (link manager `_capture_loop`, buffer queries,
`TemplateValidator`, `ProtocolDiscoveryEngine`) and the docker-scale logger
`adam_scale_logger.py` (`_process_received_data` buffer append).  Strings are
modelled as `List Char`, bytes as `Nat` byte values, Python floats as exact
rationals, dictionaries as association lists, and fallible code as
`Except`/`Option` results.
-/

namespace AdamScale

/-- Characters treated as frame delimiters by the capture loop, matching the
regular expression class in `re.split` over one-or-more CR/LF characters. -/
def isCRLF (c : Char) : Bool := c = '\r' || c = '\n'

/-- ASCII whitespace characters stripped by Python `str.strip()`. -/
def isPyWS (c : Char) : Bool :=
  c = ' ' || c = '\t' || c = '\n' || c = '\r' || c = '\x0b' || c = '\x0c'

/-- Python `str.strip()`: remove leading and trailing whitespace. -/
def trim (s : List Char) : List Char :=
  ((s.dropWhile isPyWS).reverse.dropWhile isPyWS).reverse

/-- One byte decoded as in `data.decode(ascii, errors=replace)`: bytes below
128 decode to themselves, all others to the U+FFFD replacement character. -/
def decodeAsciiByte (b : Nat) : Char :=
  if b < 128 then Char.ofNat b else '�'

/-- Bytewise ASCII-with-replacement decoding of a received chunk. -/
def decodeAscii (bs : List Nat) : List Char := bs.map decodeAsciiByte

/-- Python `re.split` over one-or-more CR/LF characters: split a text on
maximal runs of CR/LF.  A run at either end contributes an empty segment,
exactly as in Python. -/
def splitCRLF : List Char → List (List Char)
  | [] => [[]]
  | c :: rest =>
    if isCRLF c then
      match rest with
      | r :: _ => if isCRLF r then splitCRLF rest else [] :: splitCRLF rest
      | [] => [] :: splitCRLF rest
    else
      (c :: (splitCRLF rest).headI) :: (splitCRLF rest).tail

/-- Python `s.endswith` tested against carriage return and newline. -/
def endsWithCRLF (s : List Char) : Bool :=
  match s.getLast? with
  | some c => isCRLF c
  | none => false

/-- One iteration of the capture loop's framing step (`_capture_loop` lines
249-266): decode the received bytes, append them to the carry-over unfinished
line, split on CR/LF runs, keep the last segment as the new carry-over unless
the accumulated text ended exactly on a line boundary, and emit every other
segment that is non-blank after stripping, stripped, in order.  Returns the
completed frames and the new carry-over. -/
def processChunk (carryOver : List Char) (chunk : List Nat) :
    List (List Char) × List Char :=
  let s := carryOver ++ decodeAscii chunk
  let lines := splitCRLF s
  let newCarry := if endsWithCRLF s then [] else lines.getLastD []
  let frames := lines.dropLast.filterMap fun l =>
    let t := trim l
    if t.isEmpty then none else some t
  (frames, newCarry)

/-- Feed a sequence of received byte chunks through the framing step one at a
time, threading the carry-over, collecting all completed frames in order. -/
def runChunks (carryOver : List Char) : List (List Nat) → List (List Char) × List Char
  | [] => ([], carryOver)
  | ch :: rest =>
    let out := processChunk carryOver ch
    let out2 := runChunks out.2 rest
    (out.1 ++ out2.1, out2.2)

/-- Character-level framing automaton used to reason about the chunk-level
step: a CR/LF character flushes the pending segment (emitting it when it is
non-blank after stripping), any other character extends the pending segment. -/
def mstep (st : List (List Char) × List Char) (c : Char) :
    List (List Char) × List Char :=
  if isCRLF c then
    (st.1 ++ (if (trim st.2).isEmpty then [] else [trim st.2]), [])
  else
    (st.1, st.2 ++ [c])

/-- Completed segments of a text: all but the last CR/LF-split segment,
stripped, with blank segments dropped. -/
def emitOf (s : List Char) : List (List Char) :=
  (splitCRLF s).dropLast.filterMap fun l =>
    let t := trim l
    if t.isEmpty then none else some t

/-- Last CR/LF-split segment of a text: the capture loop's carry-over. -/
def carryOf (s : List Char) : List Char := (splitCRLF s).getLastD []

/-- A text free of carriage returns and newlines. -/
def noCRLF (s : List Char) : Prop := ∀ c ∈ s, isCRLF c = false

/-- One buffered frame entry: the stripped line text plus its capture
timestamp (UNIX seconds, modelled as an exact rational). -/
structure Entry where
  data : List Char
  timestamp : ℚ
deriving DecidableEq

/-- Buffer append of the docker-scale logger's `_process_received_data`:
append the new entry and, when the buffer then exceeds 1000 entries, keep
only the most recent 500 of them. -/
def bufferAppend (buf : List Entry) (e : Entry) : List Entry :=
  let b := buf ++ [e]
  if b.length > 1000 then b.drop (b.length - 500) else b

/-- Python `get_recent_data(max_age_seconds)`: filter the buffer to entries
whose timestamp is strictly newer than now minus the maximum age, and return
that snapshot together with the (unchanged) buffer state. -/
def getRecentData (buf : List Entry) (now maxAgeSeconds : ℚ) :
    List Entry × List Entry :=
  (buf.filter fun e => decide (now - maxAgeSeconds < e.timestamp), buf)

/-- Dataclass `ProtocolField`: one fixed-width slice of a frame.  The lookup
values dict is modelled as an association list. -/
structure ProtocolField where
  name : String
  start : Nat
  length : Nat
  field_type : String
  decimal_places : Option Nat
  values : List (List Char × List Char)
deriving DecidableEq

/-- Dataclass `ProtocolTemplate`.  The delimiter is stored in its escaped
form (backslash r backslash n), as in the template documents; the discovery
date is modelled as a UNIX timestamp. -/
structure ProtocolTemplate where
  template_id : String
  name : String
  description : String
  delimiter : List Char
  encoding : String
  fields : List ProtocolField
  confidence_score : ℚ
  discovery_date : ℚ
deriving DecidableEq

/-- A parsed field value.  A numeric field stores its accepted slice (the
float value itself is inspected by no claim), a lookup field stores either
the mapped value or the unknown-code placeholder, a text field the slice. -/
inductive FieldValue where
  | num (raw : List Char)
  | mapped (v : List Char)
  | unknownLookup (raw : List Char)
  | text (raw : List Char)
deriving DecidableEq

/-- Per-frame parse failures of `_parse_with_template`: `dataTooShort` is the
code's Data-too-short-for-field message (the spec's FrameTooShort) and
`nonNumeric` the Non-numeric-data-in-field message (NonNumericField). -/
inductive ParseError where
  | dataTooShort (field : String)
  | nonNumeric (field : String) (raw : List Char)
deriving DecidableEq

/-- Decimal digit test. -/
def isDigitChar (c : Char) : Bool := '0' ≤ c && c ≤ '9'

/-- Acceptance model of Python `float` applied to an already-stripped string:
an optional sign, then digits with an optional decimal point (at least one
digit on one of its sides), then an optional exponent marker with sign and a
non-empty digit string.  The inf/nan/underscore literal forms are not
modelled; no claim involves them. -/
def isPyFloat (s : List Char) : Bool :=
  let s1 := match s with
    | c :: rest => if c = '+' || c = '-' then rest else c :: rest
    | [] => []
  let intDigits := s1.takeWhile isDigitChar
  let r1 := s1.dropWhile isDigitChar
  let mant : Bool × List Char :=
    match r1 with
    | '.' :: rest =>
      (!intDigits.isEmpty || !(rest.takeWhile isDigitChar).isEmpty,
       rest.dropWhile isDigitChar)
    | _ => (!intDigits.isEmpty, r1)
  mant.1 &&
    (match mant.2 with
     | [] => true
     | e :: rest =>
       (e = 'e' || e = 'E') &&
         (let rest2 := match rest with
            | c :: r3 => if c = '+' || c = '-' then r3 else c :: r3
            | [] => []
          !rest2.isEmpty && rest2.all isDigitChar))

/-- Lookup of a raw slice in a lookup field's values dict. -/
def lookupField (vals : List (List Char × List Char)) (k : List Char) :
    Option (List Char) :=
  (vals.find? fun p => p.1 == k).map (·.2)

/-- Python `_parse_with_template`: decode one frame against the template's
ordered field list.  Fields are processed in declared order and the first
failure aborts the whole frame.  A slice running past the end of the frame
fails with `dataTooShort`; a numeric slice must satisfy `float` after
stripping; an unmatched lookup slice becomes an unknown-code placeholder,
not a failure; a text (or otherwise-typed) field always succeeds. -/
def parseWithTemplate (raw : List Char) :
    List ProtocolField → Except ParseError (List (String × FieldValue))
  | [] => .ok []
  | f :: rest =>
    if f.start + f.length ≤ raw.length then
      let fieldData := (raw.drop f.start).take f.length
      if f.field_type = "numeric" then
        if isPyFloat (trim fieldData) then
          match parseWithTemplate raw rest with
          | .ok ps => .ok ((f.name, .num fieldData) :: ps)
          | .error e => .error e
        else
          .error (.nonNumeric f.name fieldData)
      else if f.field_type = "lookup" then
        let v := match lookupField f.values fieldData with
          | some w => FieldValue.mapped w
          | none => FieldValue.unknownLookup fieldData
        match parseWithTemplate raw rest with
        | .ok ps => .ok ((f.name, v) :: ps)
        | .error e => .error e
      else
        match parseWithTemplate raw rest with
        | .ok ps => .ok ((f.name, .text fieldData) :: ps)
        | .error e => .error e
    else
      .error (.dataTooShort f.name)

/-- Success test on a parse outcome. -/
def parseOk (r : Except ParseError (List (String × FieldValue))) : Bool :=
  match r with
  | .ok _ => true
  | .error _ => false

/-- Python `_check_data_consistency`: with fewer than two samples return the
neutral 50; otherwise score the variance of the frame text lengths (the
template-fields parameter of the Python function is unused there). -/
def checkDataConsistency (testData : List Entry) : ℚ :=
  if testData.length < 2 then 50
  else
    let lengths : List ℚ := testData.map fun e => (e.data.length : ℚ)
    let avgLength := lengths.sum / (lengths.length : ℚ)
    let lengthVariance :=
      (lengths.map fun l => (l - avgLength) ^ 2).sum / (lengths.length : ℚ)
    if lengthVariance < 2 then 90
    else if lengthVariance < 10 then 70
    else 30

/-- Python `str.replace` (leftmost, non-overlapping), with a fuel argument
bounding the number of steps by the string length; the empty-pattern case
(exercised by no template) returns the string unchanged. -/
def strReplaceFuel : Nat → List Char → List Char → List Char → List Char
  | 0, s, _, _ => s
  | _ + 1, [], _, _ => []
  | fuel + 1, c :: rest, pat, repl =>
    if !pat.isEmpty && pat.isPrefixOf (c :: rest) then
      repl ++ strReplaceFuel fuel ((c :: rest).drop pat.length) pat repl
    else
      c :: strReplaceFuel fuel rest pat repl

/-- Python `str.replace` on a text. -/
def strReplace (s pat repl : List Char) : List Char :=
  strReplaceFuel s.length s pat repl

/-- Substring test, Python's `in` on strings. -/
def containsSub (needle : List Char) : List Char → Bool
  | [] => needle.isEmpty
  | c :: t => needle.isPrefixOf (c :: t) || containsSub needle t

/-- The template delimiter after unescaping the backslash-r, backslash-n
escape sequences, as done in the validator. -/
def unescapeDelimiter (d : List Char) : List Char :=
  strReplace (strReplace d ['\\', 'r'] ['\r']) ['\\', 'n'] ['\n']

/-- Python `_check_format_characteristics`: the percentage of frames that
contain the template's unescaped, stripped delimiter as a substring or are
non-blank after stripping (0 for an empty sample). -/
def checkFormatCharacteristics (testData : List Entry)
    (template : ProtocolTemplate) : ℚ :=
  let delimiter := unescapeDelimiter template.delimiter
  let delimiterMatches := (testData.filter fun e =>
    containsSub (trim delimiter) e.data || !(trim e.data).isEmpty).length
  if testData.length = 0 then 0
  else (delimiterMatches : ℚ) / (testData.length : ℚ) * 100

/-- The weighted confidence combination of `_analyze_template_match`: parse
success rate times 0.6 plus data consistency times 0.2 plus format match
times 0.2, the float weights modelled as exact rationals. -/
def overallConfidence (parseSuccessRate dataConsistency formatMatch : ℚ) : ℚ :=
  parseSuccessRate * (6 / 10) + dataConsistency * (2 / 10) +
    formatMatch * (2 / 10)

/-- Session-level failure outcomes of `test_template`; `noDataCaptured` is
the code's reported No-data-received result (the spec's NoDataCaptured). -/
inductive TestError where
  | connectionFailed
  | captureFailed
  | noDataCaptured
deriving DecidableEq

/-- The result dictionary of `test_template` and `_analyze_template_match`;
keys absent on a given code path are defaulted (counts to 0, errors to the
empty list). -/
structure TestResult where
  success : Bool
  confidence : ℚ
  successful_parses : Nat
  total_attempts : Nat
  parsing_errors : List ParseError
  error : Option TestError
deriving DecidableEq

/-- Python `_analyze_template_match`: count parse attempts and successes over
the sample in order, then combine the weighted confidence score (0 when the
sample is empty). -/
def analyzeTemplateMatch (template : ProtocolTemplate)
    (testData : List Entry) : TestResult :=
  let totalAttempts := testData.length
  let successfulParses := (testData.filter fun e =>
    parseOk (parseWithTemplate e.data template.fields)).length
  let parsingErrors := testData.filterMap fun e =>
    match parseWithTemplate e.data template.fields with
    | .error er => some er
    | .ok _ => none
  let confidence : ℚ :=
    if totalAttempts = 0 then 0
    else
      overallConfidence ((successfulParses : ℚ) / (totalAttempts : ℚ) * 100)
        (checkDataConsistency testData)
        (checkFormatCharacteristics testData template)
  { success := true, confidence := confidence,
    successful_parses := successfulParses, total_attempts := totalAttempts,
    parsing_errors := parsingErrors.take 5, error := none }

/-- Python `test_template` after the sampling window, as a function of the
frames the window captured: an empty capture reports the zero-confidence
NoDataCaptured outcome (not an exception), otherwise the analysis runs. -/
def testTemplate (template : ProtocolTemplate) (testData : List Entry) :
    TestResult :=
  if testData.isEmpty then
    { success := false, confidence := 0, successful_parses := 0,
      total_attempts := 0, parsing_errors := [], error := some .noDataCaptured }
  else
    analyzeTemplateMatch template testData

/-- Dataclass `DiscoveryStep`. -/
structure DiscoveryStep where
  step_number : Nat
  action : String
  expected_weight : Option ℚ
  captured_data : List (List Char)
  timestamp : ℚ
deriving DecidableEq

/-- Python `_analyze_and_create_template`, as a function of the first
recorded step's captured frames and the current overall confidence score
(absent when `_calculate_confidence` never ran; the code reads it with
default 0).  The id, description and date strings computed at the call site
from the clock are passed in.  Returns `none` when the first step captured
no frames. -/
def analyzeAndCreateTemplate (sampleData : List (List Char))
    (overallScore : Option ℚ) (templateId description : String)
    (discoveryDate : ℚ) : Option ProtocolTemplate :=
  if sampleData.isEmpty then none
  else
    some
      { template_id := templateId
        name := "Auto-Discovered Scale Protocol"
        description := description
        delimiter := ['\\', 'r', '\\', 'n']
        encoding := "ASCII"
        fields := [{ name := "weight", start := 0,
                     length := match sampleData with
                       | [] => 10
                       | d :: _ => d.length,
                     field_type := "numeric", decimal_places := some 2,
                     values := [] }]
        confidence_score := overallScore.getD 0
        discovery_date := discoveryDate }

/-- Python `_finalize_discovery`: fail when no discovery steps were
recorded, otherwise synthesize a template from the first recorded step. -/
def finalizeDiscovery (steps : List DiscoveryStep) (overallScore : Option ℚ)
    (templateId description : String) (discoveryDate : ℚ) :
    Option ProtocolTemplate :=
  match steps with
  | [] => none
  | s0 :: _ =>
    analyzeAndCreateTemplate s0.captured_data overallScore templateId
      description discoveryDate

/-- Sample frames of the spec's worked scoring scenario: three entries of
eight characters each, numeric in their first six characters and
CRLF-terminated. -/
def c3Frames : List Entry :=
  [Entry.mk "12.345\r\n".toList 0, Entry.mk "12.346\r\n".toList 1,
   Entry.mk "12.344\r\n".toList 2]

/-- Template of the spec's worked scoring scenario: a single numeric field at
start 0 with length 6, with the default escaped CRLF delimiter. -/
def c3Template : ProtocolTemplate :=
  { template_id := "c3", name := "C3", description := "",
    delimiter := ['\\', 'r', '\\', 'n'], encoding := "ASCII",
    fields := [{ name := "weight", start := 0, length := 6,
                 field_type := "numeric", decimal_places := some 3,
                 values := [] }],
    confidence_score := 0, discovery_date := 0 }

/-- A template field whose slice runs past the end of an 8-character frame
(start 5, length 10), as in the spec's FrameTooShort scenario. -/
def c7Field : ProtocolField :=
  { name := "f", start := 5, length := 10, field_type := "text",
    decimal_places := none, values := [] }

/-- A template holding only the overrunning field `c7Field`. -/
def c7Tmpl : ProtocolTemplate :=
  { template_id := "t", name := "t", description := "",
    delimiter := ['\\', 'r', '\\', 'n'], encoding := "ASCII",
    fields := [c7Field], confidence_score := 0, discovery_date := 0 }

/-- The frame texts the discovery module's capture loop appends to its buffer
(each stored as an entry with a capture timestamp) after processing the given
received chunks in order, starting from an empty carry-over and an empty
buffer. -/
def captureRun (chunks : List (List Nat)) : List (List Char) :=
  (runChunks [] chunks).1

/-- The docker-scale logger's monitoring loop as written: `_monitor_loop`
initializes partial_data to the empty string once and passes it by value to
`_process_received_data`, which rebinds its local parameter and never returns
or stores it, so every received chunk is framed against an empty carry-over
and the newly computed carry-over is discarded.  The result is the ordered
list of frames the loop appends to the buffer. -/
def monitorRun (chunks : List (List Nat)) : List (List Char) :=
  (chunks.map fun ch => (processChunk [] ch).1).flatten

/-- Buffer append of the discovery module's `_capture_loop` (lines 262-266):
the entry is appended under the lock with no capacity check — this buffer has
no cap and no truncation. -/
def captureBufferAppend (buf : List Entry) (e : Entry) : List Entry :=
  buf ++ [e]

end AdamScale

namespace AdamScale

theorem splitCRLF_cons_neg (c : Char) (rest : List Char) (h : isCRLF c = false) :
    splitCRLF (c :: rest) = (c :: (splitCRLF rest).headI) :: (splitCRLF rest).tail := by
  conv_lhs => rw [splitCRLF.eq_def]
  simp [h]

theorem splitCRLF_delim_nil (a : Char) (h : isCRLF a = true) :
    splitCRLF [a] = [[], []] := by
  conv_lhs => rw [splitCRLF.eq_def]
  simp [h, splitCRLF]

theorem splitCRLF_delim_delim (a r : Char) (t : List Char) (ha : isCRLF a = true)
    (hr : isCRLF r = true) : splitCRLF (a :: r :: t) = splitCRLF (r :: t) := by
  conv_lhs => rw [splitCRLF.eq_def]
  simp [ha, hr]

theorem splitCRLF_delim_not (a r : Char) (t : List Char) (ha : isCRLF a = true)
    (hr : isCRLF r = false) : splitCRLF (a :: r :: t) = [] :: splitCRLF (r :: t) := by
  conv_lhs => rw [splitCRLF.eq_def]
  simp [ha, hr]

theorem splitCRLF_ne_nil : ∀ s : List Char, splitCRLF s ≠ []
  | [] => by simp [splitCRLF]
  | c :: rest => by
    by_cases hc : isCRLF c
    · match rest with
      | [] => rw [splitCRLF_delim_nil c hc]; simp
      | r :: t =>
        by_cases hr : isCRLF r
        · rw [splitCRLF_delim_delim c r t hc hr]
          exact splitCRLF_ne_nil (r :: t)
        · rw [splitCRLF_delim_not c r t hc (by simpa using hr)]
          simp
    · rw [splitCRLF_cons_neg c rest (by simpa using hc)]
      simp

theorem headI_cons_tail {α : Type} [Inhabited α] {l : List α} (h : l ≠ []) :
    l.headI :: l.tail = l := by
  cases l with
  | nil => exact absurd rfl h
  | cons a t => rfl

theorem splitCRLF_append_noCRLF {p : List Char} (hp : noCRLF p) (t : List Char) :
    splitCRLF (p ++ t) = (p ++ (splitCRLF t).headI) :: (splitCRLF t).tail := by
  induction p with
  | nil =>
    simpa using (headI_cons_tail (splitCRLF_ne_nil t)).symm
  | cons x p' ih =>
    have hx : isCRLF x = false := hp x (List.mem_cons_self x p')
    have hp' : noCRLF p' := fun c hc => hp c (List.mem_cons_of_mem x hc)
    have ih' := ih hp'
    simp only [List.cons_append]
    rw [splitCRLF_cons_neg x (p' ++ t) hx, ih']
    simp

theorem splitCRLF_of_noCRLF {p : List Char} (hp : noCRLF p) :
    splitCRLF p = [p] := by
  have h := splitCRLF_append_noCRLF hp []
  simpa [splitCRLF] using h

end AdamScale

namespace AdamScale

theorem trim_nil : trim ([] : List Char) = [] := rfl

theorem splitCRLF_delim_cons (a : Char) (ha : isCRLF a = true) :
    ∀ s : List Char,
      (splitCRLF (a :: s)).headI = [] ∧ (splitCRLF (a :: s)).tail ≠ [] ∧
        emitOf (a :: s) = emitOf s ∧ carryOf (a :: s) = carryOf s
  | [] => by
    rw [emitOf, carryOf, emitOf, carryOf, splitCRLF_delim_nil a ha]
    simp [splitCRLF, trim_nil]
  | r :: t => by
    by_cases hr : isCRLF r
    · have ih := splitCRLF_delim_cons r hr t
      rw [emitOf, carryOf, splitCRLF_delim_delim a r t ha hr]
      exact ⟨ih.1, ih.2.1, rfl, rfl⟩
    · have hr' : isCRLF r = false := by simpa using hr
      rw [emitOf, carryOf, emitOf, carryOf, splitCRLF_delim_not a r t ha hr']
      refine ⟨rfl, by simp [splitCRLF_ne_nil (r :: t)], ?_, ?_⟩
      · match hS : splitCRLF (r :: t) with
        | [] => exact absurd hS (splitCRLF_ne_nil (r :: t))
        | x :: xs => simp [trim_nil]
      · rw [List.getLastD_cons]

end AdamScale

namespace AdamScale

theorem getLastD_of_ne_nil {α : Type} {l : List α} (h : l ≠ []) (d d' : α) :
    l.getLastD d = l.getLastD d' := by
  rw [List.getLastD_eq_getLast?, List.getLastD_eq_getLast?]
  match l, h with
  | x :: xs, _ => simp [List.getLast?_cons]

theorem dropLast_cons_ne_nil {α : Type} {t : List α} (h : t ≠ []) (x : α) :
    (x :: t).dropLast = x :: t.dropLast := by
  cases t with
  | nil => exact absurd rfl h
  | cons a b => rfl

theorem foldl_mstep_eq (s : List Char) : ∀ (es : List (List Char)) (p : List Char),
    noCRLF p →
    List.foldl mstep (es, p) s = (es ++ emitOf (p ++ s), carryOf (p ++ s)) := by
  induction s with
  | nil =>
    intro es p hp
    rw [emitOf, carryOf]
    simp [splitCRLF_of_noCRLF hp]
  | cons a s2 ih =>
    intro es p hp
    rw [List.foldl_cons]
    by_cases ha : isCRLF a
    · have hd := splitCRLF_delim_cons a ha s2
      have hX := headI_cons_tail (splitCRLF_ne_nil (a :: s2))
      rw [hd.1] at hX
      have hmach : mstep (es, p) a =
          (es ++ (if (trim p).isEmpty then [] else [trim p]), []) := by
        simp [mstep, ha]
      rw [hmach, ih _ [] (by intro c hc; simp at hc)]
      have hsplit : splitCRLF (p ++ (a :: s2)) =
          p :: (splitCRLF (a :: s2)).tail := by
        rw [splitCRLF_append_noCRLF hp, hd.1]
        simp
      have hemit : emitOf (p ++ (a :: s2)) =
          (if (trim p).isEmpty then [] else [trim p]) ++ emitOf s2 := by
        rw [← hd.2.2.1]
        rw [emitOf, emitOf, hsplit]
        conv_rhs => rw [← hX]
        rw [dropLast_cons_ne_nil hd.2.1, dropLast_cons_ne_nil hd.2.1]
        simp only [List.filterMap_cons, trim_nil, List.isEmpty_nil,
          List.isEmpty_iff]
        by_cases htp : trim p = [] <;> simp [htp]
      have hcarry : carryOf (p ++ (a :: s2)) = carryOf s2 := by
        rw [← hd.2.2.2]
        rw [carryOf, carryOf, hsplit]
        conv_rhs => rw [← hX]
        rw [List.getLastD_cons, List.getLastD_cons]
        exact getLastD_of_ne_nil hd.2.1 _ _
      rw [hemit, hcarry]
      simp
    · have ha' : isCRLF a = false := by simpa using ha
      have hmach : mstep (es, p) a = (es, p ++ [a]) := by
        simp [mstep, ha']
      have hp' : noCRLF (p ++ [a]) := by
        intro c hc
        rcases List.mem_append.mp hc with h | h
        · exact hp c h
        · simp at h; subst h; exact ha'
      rw [hmach, ih _ _ hp']
      simp

end AdamScale

namespace AdamScale

theorem noCRLF_nil : noCRLF [] := by intro c hc; simp at hc

theorem foldl_mstep_snd_noCRLF (s : List Char) :
    ∀ (es : List (List Char)) (p : List Char), noCRLF p →
      noCRLF (List.foldl mstep (es, p) s).2 := by
  induction s with
  | nil => intro es p hp; exact hp
  | cons a s2 ih =>
    intro es p hp
    rw [List.foldl_cons]
    by_cases ha : isCRLF a
    · have : mstep (es, p) a =
          (es ++ (if (trim p).isEmpty then [] else [trim p]), []) := by
        simp [mstep, ha]
      rw [this]
      exact ih _ [] noCRLF_nil
    · have ha' : isCRLF a = false := by simpa using ha
      have : mstep (es, p) a = (es, p ++ [a]) := by simp [mstep, ha']
      rw [this]
      refine ih _ _ ?_
      intro c hc
      rcases List.mem_append.mp hc with h | h
      · exact hp c h
      · simp at h; subst h; exact ha'

theorem carryOf_noCRLF (s : List Char) : noCRLF (carryOf s) := by
  have h := foldl_mstep_eq s [] [] noCRLF_nil
  have h2 := foldl_mstep_snd_noCRLF s [] [] noCRLF_nil
  rw [h] at h2
  simpa using h2

theorem carryOf_of_endsWithCRLF {s : List Char} (h : endsWithCRLF s = true) :
    carryOf s = [] := by
  match hl : s.getLast? with
  | none =>
    rw [endsWithCRLF, hl] at h
    simp at h
  | some a =>
    have ha : isCRLF a = true := by rw [endsWithCRLF, hl] at h; exact h
    have hs : s.dropLast ++ [a] = s := List.dropLast_append_getLast? a hl
    have h1 := foldl_mstep_eq s [] [] noCRLF_nil
    rw [← hs, List.foldl_append] at h1
    have h2 : List.foldl mstep (List.foldl mstep ([], []) s.dropLast) [a] =
        ((List.foldl mstep ([], []) s.dropLast).1 ++
          (if (trim (List.foldl mstep ([], []) s.dropLast).2).isEmpty then []
           else [trim (List.foldl mstep ([], []) s.dropLast).2]), []) := by
      rw [List.foldl_cons, List.foldl_nil, mstep, ha]
      simp
    rw [h2] at h1
    have := congrArg Prod.snd h1
    simp only at this
    rw [← hs]
    exact this.symm

theorem processChunk_eq (p : List Char) (ch : List Nat) :
    processChunk p ch =
      (emitOf (p ++ decodeAscii ch), carryOf (p ++ decodeAscii ch)) := by
  by_cases h : endsWithCRLF (p ++ decodeAscii ch)
  · conv_rhs => rw [carryOf_of_endsWithCRLF h]
    simp [processChunk, emitOf, h]
  · have h' : endsWithCRLF (p ++ decodeAscii ch) = false := by simpa using h
    simp [processChunk, emitOf, carryOf, h']

theorem emit_carry_comp (u t : List Char) :
    emitOf (u ++ t) = emitOf u ++ emitOf (carryOf u ++ t) ∧
      carryOf (u ++ t) = carryOf (carryOf u ++ t) := by
  have h2 := foldl_mstep_eq u [] [] noCRLF_nil
  simp only [List.nil_append] at h2
  have h3 := foldl_mstep_eq t (emitOf u) (carryOf u) (carryOf_noCRLF u)
  have h1 := foldl_mstep_eq (u ++ t) [] [] noCRLF_nil
  simp only [List.nil_append] at h1
  rw [List.foldl_append, h2, h3] at h1
  have hfst := congrArg Prod.fst h1
  have hsnd := congrArg Prod.snd h1
  simp only at hfst hsnd
  exact ⟨hfst.symm, hsnd.symm⟩

end AdamScale

namespace AdamScale

theorem emitOf_noCRLF {p : List Char} (hp : noCRLF p) : emitOf p = [] := by
  rw [emitOf, splitCRLF_of_noCRLF hp]
  simp

theorem carryOf_noCRLF_self {p : List Char} (hp : noCRLF p) : carryOf p = p := by
  rw [carryOf, splitCRLF_of_noCRLF hp]
  simp

theorem runChunks_eq : ∀ (chunks : List (List Nat)) (p : List Char), noCRLF p →
    runChunks p chunks =
      (emitOf (p ++ decodeAscii chunks.flatten),
       carryOf (p ++ decodeAscii chunks.flatten)) := by
  intro chunks
  induction chunks with
  | nil =>
    intro p hp
    simp only [runChunks, List.flatten_nil, decodeAscii, List.map_nil,
      List.append_nil]
    rw [emitOf_noCRLF hp, carryOf_noCRLF_self hp]
  | cons ch rest ih =>
    intro p hp
    have hcomp := emit_carry_comp (p ++ decodeAscii ch) (decodeAscii rest.flatten)
    simp only [runChunks, processChunk_eq]
    rw [ih (carryOf (p ++ decodeAscii ch)) (carryOf_noCRLF _)]
    have hjoin : p ++ decodeAscii (ch :: rest).flatten =
        (p ++ decodeAscii ch) ++ decodeAscii rest.flatten := by
      simp [decodeAscii]
    rw [hjoin, ← hcomp.1, ← hcomp.2]

end AdamScale

namespace AdamScale

theorem head_dropWhile {α : Type} (p : α → Bool) :
    ∀ (l : List α) (c : α) (rest : List α),
      l.dropWhile p = c :: rest → p c = false
  | [], c, rest, h => by simp at h
  | a :: t, c, rest, h => by
    rw [List.dropWhile_cons] at h
    by_cases ha : p a
    · rw [if_pos ha] at h
      exact head_dropWhile p t c rest h
    · rw [if_neg ha] at h
      cases h
      simpa using ha

theorem dropWhile_idem {α : Type} (p : α → Bool) :
    ∀ l : List α, (l.dropWhile p).dropWhile p = l.dropWhile p
  | [] => rfl
  | a :: t => by
    rw [List.dropWhile_cons]
    by_cases ha : p a
    · rw [if_pos ha]
      exact dropWhile_idem p t
    · rw [if_neg ha, List.dropWhile_cons, if_neg ha]

theorem dropWhile_eq_self_of_head {α : Type} {p : α → Bool} {l : List α}
    (h : ∀ c ∈ l.head?, p c = false) : l.dropWhile p = l := by
  cases l with
  | nil => rfl
  | cons a t =>
    rw [List.dropWhile_cons, if_neg]
    simp only [List.head?_cons, Option.mem_def, Option.some.injEq] at h
    simp [h a rfl]

theorem trim_head_core {l : List Char} :
    ((l.dropWhile isPyWS).reverse.dropWhile isPyWS).reverse.dropWhile isPyWS =
      ((l.dropWhile isPyWS).reverse.dropWhile isPyWS).reverse := by
  set u := l.dropWhile isPyWS with hu
  set v := u.reverse.dropWhile isPyWS with hv
  apply dropWhile_eq_self_of_head
  intro c hc
  rw [List.head?_reverse] at hc
  have hvne : v ≠ [] := by
    intro hveq
    rw [hveq] at hc
    simp at hc
  have hsuf : v <:+ u.reverse := by rw [hv]; exact List.dropWhile_suffix _
  obtain ⟨w, hw⟩ := hsuf
  have : u.reverse.getLast? = some c := by
    rw [← hw, List.getLast?_append]
    rw [Option.mem_def] at hc
    simp [hc]
  rw [List.getLast?_reverse] at this
  match hu2 : u with
  | [] => simp at this
  | a :: t =>
    simp only [List.head?_cons, Option.some.injEq] at this
    subst this
    exact head_dropWhile isPyWS l a t hu.symm

theorem trim_trim (l : List Char) : trim (trim l) = trim l := by
  have h1 : (trim l).dropWhile isPyWS = trim l := by
    rw [trim]
    exact trim_head_core
  rw [trim, h1, trim, List.reverse_reverse, dropWhile_idem]

theorem mem_trim {c : Char} {l : List Char} (h : c ∈ trim l) : c ∈ l := by
  rw [trim] at h
  rw [List.mem_reverse] at h
  have h1 := (List.dropWhile_suffix isPyWS).mem h
  rw [List.mem_reverse] at h1
  exact (List.dropWhile_suffix isPyWS).mem h1

end AdamScale

namespace AdamScale

theorem foldl_mstep_fst_good (s : List Char) :
    ∀ (es : List (List Char)) (p : List Char),
      (∀ f ∈ es, trim f ≠ [] ∧ noCRLF f) → noCRLF p →
      ∀ f ∈ (List.foldl mstep (es, p) s).1, trim f ≠ [] ∧ noCRLF f := by
  induction s with
  | nil => intro es p hes _ f hf; exact hes f hf
  | cons a s2 ih =>
    intro es p hes hp
    rw [List.foldl_cons]
    by_cases ha : isCRLF a
    · have hm : mstep (es, p) a =
          (es ++ (if (trim p).isEmpty then [] else [trim p]), []) := by
        simp [mstep, ha]
      rw [hm]
      refine ih _ [] ?_ noCRLF_nil
      intro f hf
      rcases List.mem_append.mp hf with h | h
      · exact hes f h
      · by_cases htp : (trim p).isEmpty
        · rw [if_pos htp] at h; simp at h
        · rw [if_neg htp] at h
          simp only [List.mem_singleton] at h
          subst h
          constructor
          · rw [trim_trim]
            simpa [List.isEmpty_iff] using htp
          · intro c hc
            exact hp c (mem_trim hc)
    · have ha' : isCRLF a = false := by simpa using ha
      have hm : mstep (es, p) a = (es, p ++ [a]) := by simp [mstep, ha']
      rw [hm]
      refine ih _ _ hes ?_
      intro c hc
      rcases List.mem_append.mp hc with h | h
      · exact hp c h
      · simp at h; subst h; exact ha'

theorem emitOf_good (t : List Char) :
    ∀ f ∈ emitOf t, trim f ≠ [] ∧ noCRLF f := by
  have h := foldl_mstep_eq t [] [] noCRLF_nil
  have h2 := foldl_mstep_fst_good t [] []
    (by intro f hf; simp at hf) noCRLF_nil
  rw [h] at h2
  simpa using h2

end AdamScale

namespace AdamScale

/-- Framing with the carry-over threaded between chunks (the discovery
module's capture loop) is chunk-boundary independent: any split of the bytes
into chunks yields the frames of the single concatenated chunk. -/
theorem runChunks_single_chunk (chunks : List (List Nat)) :
    (runChunks [] chunks).1 = (processChunk [] chunks.flatten).1 := by
  rw [runChunks_eq chunks [] noCRLF_nil, processChunk_eq]

/-- C1: the framing step as the claim describes it (carry-over kept between
chunks, as the discovery capture loop does) is chunk-boundary independent for
every chunk split; the docker-scale monitoring loop, however, never stores
the carry-over its framing step computes, and at the failing input (bytes of
12.3 then 45-CR-LF) it emits the single frame 45, while the same bytes
delivered as one chunk emit 12.345. -/
theorem monitor_loop_drops_carryover :
    (∀ chunks : List (List Nat),
      (runChunks [] chunks).1 = (processChunk [] chunks.flatten).1) ∧
      monitorRun [[49, 50, 46, 51], [52, 53, 13, 10]] = [['4', '5']] ∧
      (processChunk []
          ([[49, 50, 46, 51], [52, 53, 13, 10]] : List (List Nat)).flatten).1 =
        [['1', '2', '.', '3', '4', '5']] :=
  ⟨runChunks_single_chunk, by decide, by decide⟩

/-- C9: every frame the capture loop stores in the buffer is non-empty
after trimming and contains no carriage-return or newline character. -/
theorem captured_frames_wellformed (chunks : List (List Nat))
    (f : List Char) (hf : f ∈ captureRun chunks) :
    trim f ≠ [] ∧ '\r' ∉ f ∧ '\n' ∉ f := by
  rw [captureRun, runChunks_eq chunks [] noCRLF_nil] at hf
  simp only [List.nil_append] at hf
  have hg := emitOf_good _ f hf
  refine ⟨hg.1, ?_, ?_⟩
  · intro hr
    have := hg.2 '\r' hr
    simp [isCRLF] at this
  · intro hn
    have := hg.2 '\n' hn
    simp [isCRLF] at this

/-- Witness for C9 at the concrete chunk list with bytes of 12-CR-LF-3. -/
theorem captured_frames_wellformed_witness :
    (['1', '2'] ∈ captureRun [[49, 50, 13, 10, 51]]) ∧
      (trim ['1', '2'] ≠ [] ∧ '\r' ∉ ['1', '2'] ∧ '\n' ∉ ['1', '2']) :=
  ⟨by decide, captured_frames_wellformed [[49, 50, 13, 10, 51]] ['1', '2'] (by decide)⟩

end AdamScale

namespace AdamScale

theorem bufferAppend_le {buf : List Entry} (e : Entry) (h : buf.length ≤ 1000) :
    (bufferAppend buf e).length ≤ 1000 := by
  rw [bufferAppend]
  split
  · simp only [List.length_drop]
    omega
  · simp only [List.length_append, List.length_singleton] at *
    omega

theorem foldl_bufferAppend_le : ∀ (es : List Entry) (buf : List Entry),
    buf.length ≤ 1000 → (es.foldl bufferAppend buf).length ≤ 1000
  | [], buf, h => h
  | e :: es, buf, h => by
    rw [List.foldl_cons]
    exact foldl_bufferAppend_le es _ (bufferAppend_le e h)

theorem foldl_captureBufferAppend_length :
    ∀ (es : List Entry) (buf : List Entry),
      (es.foldl captureBufferAppend buf).length = buf.length + es.length
  | [], buf => by simp
  | e :: es, buf => by
    rw [List.foldl_cons, foldl_captureBufferAppend_length es]
    simp only [captureBufferAppend, List.length_append, List.length_singleton,
      List.length_cons, List.length_nil]
    omega

/-- C2 counterexample: the discovery module's capture-loop buffer append has
no capacity check, so 1001 appends starting from the empty buffer leave 1001
entries in the buffer, exceeding the claimed hard cap of 1000. -/
theorem capture_buffer_unbounded_cex :
    1000 <
      ((List.replicate 1001 (Entry.mk [] 0)).foldl captureBufferAppend
        []).length := by
  rw [foldl_captureBufferAppend_length]
  simp only [List.length_nil, List.length_replicate]
  omega

/-- C2 (amended): the docker-scale logger's buffer append from any state
within the hard capacity of 1000 keeps the buffer within 1000 entries; every
sequence of such appends from the empty buffer stays within 1000; an append
that pushes that buffer past 1000 entries truncates it to exactly the most
recent 500 entries; the discovery module's capture-loop buffer, by contrast,
performs no truncation — after any sequence of appends it holds exactly as
many entries as were appended, so it can grow past 1000. -/
theorem frame_buffer_capacity :
    (∀ (buf : List Entry) (e : Entry), buf.length ≤ 1000 →
      (bufferAppend buf e).length ≤ 1000) ∧
    (∀ es : List Entry, (es.foldl bufferAppend []).length ≤ 1000) ∧
    (∀ (buf : List Entry) (e : Entry), (buf ++ [e]).length > 1000 →
      bufferAppend buf e = (buf ++ [e]).drop ((buf ++ [e]).length - 500) ∧
      (bufferAppend buf e).length = 500) ∧
    (∀ es : List Entry,
      (es.foldl captureBufferAppend []).length = es.length) := by
  refine ⟨fun buf e h => bufferAppend_le e h,
    fun es => foldl_bufferAppend_le es [] (by simp), ?_,
    fun es => by rw [foldl_captureBufferAppend_length]; simp⟩
  intro buf e h
  constructor
  · rw [bufferAppend, if_pos h]
  · rw [bufferAppend, if_pos h]
    simp only [List.length_drop, List.length_append, List.length_singleton] at *
    omega

/-- Witness for C2 at a concrete buffer of exactly 1000 entries. -/
theorem frame_buffer_capacity_witness :
    ((List.replicate 1000 (Entry.mk [] 0) ++ [Entry.mk [] 0]).length > 1000) ∧
      (bufferAppend (List.replicate 1000 (Entry.mk [] 0)) (Entry.mk [] 0)).length
        = 500 := by
  have hlen : (List.replicate 1000 (Entry.mk [] 0) ++ [Entry.mk [] 0]).length
      = 1001 := by
    simp only [List.length_append, List.length_replicate, List.length_singleton]
  refine ⟨by omega, (frame_buffer_capacity.2.2.1 _ _ (by omega)).2⟩

theorem checkDataConsistency_bounds (d : List Entry) :
    0 ≤ checkDataConsistency d ∧ checkDataConsistency d ≤ 100 := by
  simp only [checkDataConsistency]
  split_ifs <;> norm_num

theorem checkFormatCharacteristics_bounds (d : List Entry)
    (tmpl : ProtocolTemplate) :
    0 ≤ checkFormatCharacteristics d tmpl ∧
      checkFormatCharacteristics d tmpl ≤ 100 := by
  rw [checkFormatCharacteristics]
  split_ifs with h
  · norm_num
  · have hm : ((d.filter fun e =>
        containsSub (trim (unescapeDelimiter tmpl.delimiter)) e.data ||
          !(trim e.data).isEmpty).length : ℚ) ≤ (d.length : ℚ) := by
      exact_mod_cast List.length_filter_le _ d
    have hd : (0 : ℚ) < (d.length : ℚ) := by
      have : d.length ≠ 0 := h
      positivity
    constructor
    · positivity
    · rw [div_mul_eq_mul_div, div_le_iff₀ hd]
      nlinarith

theorem ratio_bounds {m n : Nat} (hmn : m ≤ n) (hn : n ≠ 0) :
    0 ≤ ((m : ℚ) / (n : ℚ) * 100) ∧ ((m : ℚ) / (n : ℚ) * 100) ≤ 100 := by
  have hd : (0 : ℚ) < (n : ℚ) := by positivity
  have hm : ((m : ℚ)) ≤ ((n : ℚ)) := by exact_mod_cast hmn
  constructor
  · positivity
  · rw [div_mul_eq_mul_div, div_le_iff₀ hd]
    nlinarith

theorem overallConfidence_bounds {p d f : ℚ} (hp : 0 ≤ p ∧ p ≤ 100)
    (hd : 0 ≤ d ∧ d ≤ 100) (hf : 0 ≤ f ∧ f ≤ 100) :
    0 ≤ overallConfidence p d f ∧ overallConfidence p d f ≤ 100 := by
  rw [overallConfidence]
  obtain ⟨h1, h2⟩ := hp
  obtain ⟨h3, h4⟩ := hd
  obtain ⟨h5, h6⟩ := hf
  constructor <;> nlinarith

theorem analyze_confidence_eq (tmpl : ProtocolTemplate) (data : List Entry) :
    (analyzeTemplateMatch tmpl data).confidence =
      if data.length = 0 then 0
      else
        overallConfidence
          (((data.filter fun e =>
              parseOk (parseWithTemplate e.data tmpl.fields)).length : ℚ) /
            (data.length : ℚ) * 100)
          (checkDataConsistency data)
          (checkFormatCharacteristics data tmpl) := rfl

/-- C4: for every template and sample the overall confidence lies in
[0, 100], and the weighted combination is monotonically non-decreasing in the
parse success rate with the other two factors held fixed. -/
theorem confidence_bounded_and_monotone :
    (∀ (tmpl : ProtocolTemplate) (data : List Entry),
      0 ≤ (analyzeTemplateMatch tmpl data).confidence ∧
        (analyzeTemplateMatch tmpl data).confidence ≤ 100) ∧
    (∀ p q d f : ℚ, p ≤ q →
      overallConfidence p d f ≤ overallConfidence q d f) := by
  constructor
  · intro tmpl data
    rw [analyze_confidence_eq]
    split_ifs with h
    · norm_num
    · exact overallConfidence_bounds
        (ratio_bounds (List.length_filter_le _ data) h)
        (checkDataConsistency_bounds data)
        (checkFormatCharacteristics_bounds data tmpl)
  · intro p q d f hpq
    rw [overallConfidence, overallConfidence]
    nlinarith

/-- Witness for C4's monotonicity at parse success rates 10 and 50. -/
theorem confidence_bounded_and_monotone_witness :
    (10 : ℚ) ≤ 50 ∧
      overallConfidence 10 20 30 ≤ overallConfidence 50 20 30 :=
  ⟨by norm_num,
    confidence_bounded_and_monotone.2 10 50 20 30 (by norm_num)⟩

end AdamScale

namespace AdamScale

/-- C5 counterexample: when the first recorded step captured no frames the
synthesis returns no template at all, rather than a template with a
10-character default field length as the claim states. -/
theorem synthesized_template_no_frames_cex :
    analyzeAndCreateTemplate [] (some 42) "discovered_1" "desc" 0 = none := rfl

/-- C5 (amended): synthesis returns no template when the first recorded
step captured no frames (the 10-character default in the length expression is
unreachable); otherwise it builds a template with exactly one numeric field
at start 0 spanning the length of the first captured frame, escaped-CRLF
delimiter, ASCII encoding, and the last computed overall confidence
(defaulted to 0 when never computed). -/
theorem synthesized_template_shape :
    (∀ (overallScore : Option ℚ) (tid desc : String) (ddate : ℚ),
      analyzeAndCreateTemplate [] overallScore tid desc ddate = none) ∧
    (∀ (d : List Char) (rest : List (List Char)) (overallScore : Option ℚ)
        (tid desc : String) (ddate : ℚ),
      analyzeAndCreateTemplate (d :: rest) overallScore tid desc ddate =
        some
          { template_id := tid
            name := "Auto-Discovered Scale Protocol"
            description := desc
            delimiter := ['\\', 'r', '\\', 'n']
            encoding := "ASCII"
            fields := [{ name := "weight", start := 0, length := d.length,
                         field_type := "numeric", decimal_places := some 2,
                         values := [] }]
            confidence_score := overallScore.getD 0
            discovery_date := ddate }) :=
  ⟨fun _ _ _ _ => rfl, fun _ _ _ _ _ _ => rfl⟩

/-- C6: for every template, a sampling window that captured no frames makes
testTemplate return a reported outcome with success false, confidence 0 and
the NoDataCaptured error. -/
theorem test_template_empty_window (tmpl : ProtocolTemplate) :
    (testTemplate tmpl []).success = false ∧
      (testTemplate tmpl []).confidence = 0 ∧
      (testTemplate tmpl []).error = some TestError.noDataCaptured :=
  ⟨rfl, rfl, rfl⟩

/-- C8: every entry returned by get_recent_data has a timestamp strictly
newer than the call time minus the maximum age, the returned entries keep
their relative buffer order (sublist), and the buffer itself is unchanged. -/
theorem get_recent_data_snapshot (buf : List Entry) (now maxAgeSeconds : ℚ) :
    (∀ e ∈ (getRecentData buf now maxAgeSeconds).1,
        now - maxAgeSeconds < e.timestamp) ∧
      (getRecentData buf now maxAgeSeconds).1.Sublist buf ∧
      (getRecentData buf now maxAgeSeconds).2 = buf := by
  refine ⟨?_, List.filter_sublist buf, rfl⟩
  intro e he
  have := List.of_mem_filter he
  simpa using this

/-- Witness for C8 at a one-entry buffer with timestamp 5, call time 10 and
maximum age 7. -/
theorem get_recent_data_snapshot_witness :
    (Entry.mk ['a'] 5 ∈ (getRecentData [Entry.mk ['a'] 5] 10 7).1) ∧
      ((10 : ℚ) - 7 < 5) := by
  have hmem : Entry.mk ['a'] 5 ∈ (getRecentData [Entry.mk ['a'] 5] 10 7).1 := by
    rw [getRecentData]
    simp only [List.mem_filter, List.mem_singleton, decide_eq_true_eq]
    norm_num
  exact ⟨hmem, (get_recent_data_snapshot [Entry.mk ['a'] 5] 10 7).1 _ hmem⟩

/-- C10: parsing any frame against an empty field list succeeds with an
empty parsed-data map, so a template declaring no fields attains a parse
success rate of 100 on any non-empty sample. -/
theorem empty_field_list_parse :
    (∀ raw : List Char, parseWithTemplate raw [] = .ok []) ∧
    (∀ (tmpl : ProtocolTemplate) (data : List Entry), tmpl.fields = [] →
      data ≠ [] →
      ((analyzeTemplateMatch tmpl data).successful_parses : ℚ) /
          ((analyzeTemplateMatch tmpl data).total_attempts : ℚ) * 100 = 100) := by
  refine ⟨fun raw => rfl, ?_⟩
  intro tmpl data hfields hdata
  have hfilter : (data.filter fun e =>
      parseOk (parseWithTemplate e.data tmpl.fields)) = data := by
    rw [hfields]
    exact List.filter_eq_self.mpr (fun a _ => rfl)
  have hsucc : (analyzeTemplateMatch tmpl data).successful_parses =
      data.length := by
    simp only [analyzeTemplateMatch, hfilter]
  have htot : (analyzeTemplateMatch tmpl data).total_attempts = data.length :=
    rfl
  rw [hsucc, htot]
  have hne : (data.length : ℚ) ≠ 0 := by
    have : data.length ≠ 0 := fun h => hdata (List.length_eq_zero.mp h)
    exact_mod_cast this
  rw [div_self hne]
  norm_num

/-- Witness for C10 at a no-field template and a one-frame sample. -/
theorem empty_field_list_parse_witness :
    (({ template_id := "t", name := "t", description := "",
        delimiter := ['\\', 'r', '\\', 'n'], encoding := "ASCII",
        fields := [], confidence_score := 0,
        discovery_date := 0 } : ProtocolTemplate).fields = []) ∧
      ([Entry.mk ['x'] 0] ≠ ([] : List Entry)) ∧
      ((analyzeTemplateMatch
            { template_id := "t", name := "t", description := "",
              delimiter := ['\\', 'r', '\\', 'n'], encoding := "ASCII",
              fields := [], confidence_score := 0, discovery_date := 0 }
            [Entry.mk ['x'] 0]).successful_parses : ℚ) /
          ((analyzeTemplateMatch
            { template_id := "t", name := "t", description := "",
              delimiter := ['\\', 'r', '\\', 'n'], encoding := "ASCII",
              fields := [], confidence_score := 0, discovery_date := 0 }
            [Entry.mk ['x'] 0]).total_attempts : ℚ) * 100 = 100 :=
  ⟨rfl, by simp,
    empty_field_list_parse.2 _ _ rfl (by simp)⟩

end AdamScale

namespace AdamScale

theorem parse_fails_of_overrun :
    ∀ (fields : List ProtocolField) (raw : List Char),
      (∃ f ∈ fields, raw.length < f.start + f.length) →
      ∃ e, parseWithTemplate raw fields = .error e
  | [], _, h => by
    obtain ⟨f, hf, _⟩ := h
    simp at hf
  | f0 :: rest, raw, h => by
    by_cases hlen : f0.start + f0.length ≤ raw.length
    · have hrest : ∃ f ∈ rest, raw.length < f.start + f.length := by
        obtain ⟨f, hf, hov⟩ := h
        rcases List.mem_cons.mp hf with hrfl | hm
        · subst hrfl; omega
        · exact ⟨f, hm, hov⟩
      obtain ⟨e, he⟩ := parse_fails_of_overrun rest raw hrest
      simp only [parseWithTemplate, if_pos hlen]
      by_cases hnum : f0.field_type = "numeric"
      · rw [if_pos hnum]
        by_cases hfl : isPyFloat (trim ((raw.drop f0.start).take f0.length))
        · rw [if_pos hfl, he]
          exact ⟨e, rfl⟩
        · rw [if_neg hfl]
          exact ⟨_, rfl⟩
      · rw [if_neg hnum]
        by_cases hlk : f0.field_type = "lookup"
        · rw [if_pos hlk, he]
          exact ⟨e, rfl⟩
        · rw [if_neg hlk, he]
          exact ⟨e, rfl⟩
    · refine ⟨ParseError.dataTooShort f0.name, ?_⟩
      simp only [parseWithTemplate, if_neg hlen]

theorem parse_append_error :
    ∀ (pre : List ProtocolField) (raw : List Char)
      (ps : List (String × FieldValue)) (rest : List ProtocolField)
      (e : ParseError),
      parseWithTemplate raw pre = .ok ps →
      parseWithTemplate raw rest = .error e →
      parseWithTemplate raw (pre ++ rest) = .error e
  | [], raw, ps, rest, e, _, herr => by simpa using herr
  | f0 :: pre', raw, ps, rest, e, hok, herr => by
    simp only [parseWithTemplate] at hok
    simp only [List.cons_append, parseWithTemplate, List.append_eq]
    by_cases hlen : f0.start + f0.length ≤ raw.length
    · rw [if_pos hlen] at hok ⊢
      by_cases hnum : f0.field_type = "numeric"
      · rw [if_pos hnum] at hok ⊢
        by_cases hfl : isPyFloat (trim ((raw.drop f0.start).take f0.length))
        · rw [if_pos hfl] at hok ⊢
          match hrec : parseWithTemplate raw pre' with
          | .error e2 => rw [hrec] at hok; simp at hok
          | .ok qs =>
            rw [parse_append_error pre' raw qs rest e hrec herr]
        · rw [if_neg hfl] at hok
          simp at hok
      · rw [if_neg hnum] at hok ⊢
        by_cases hlk : f0.field_type = "lookup"
        · rw [if_pos hlk] at hok ⊢
          match hrec : parseWithTemplate raw pre' with
          | .error e2 => rw [hrec] at hok; simp at hok
          | .ok qs =>
            rw [parse_append_error pre' raw qs rest e hrec herr]
        · rw [if_neg hlk] at hok ⊢
          match hrec : parseWithTemplate raw pre' with
          | .error e2 => rw [hrec] at hok; simp at hok
          | .ok qs =>
            rw [parse_append_error pre' raw qs rest e hrec herr]
    · rw [if_neg hlen] at hok
      simp at hok

end AdamScale

namespace AdamScale


/-- C7 counterexample: with a first numeric field whose slice is
non-numeric and a second field overrunning the 8-character frame, the parse
fails with the NonNumericField error, not FrameTooShort as the claim
states. -/
theorem frame_too_short_error_cex :
    ("abcdefgh".toList.length <
        (5 : Nat) + 10) ∧
      parseWithTemplate "abcdefgh".toList
          [{ name := "f1", start := 0, length := 2, field_type := "numeric",
             decimal_places := none, values := [] },
           { name := "f2", start := 5, length := 10, field_type := "text",
             decimal_places := none, values := [] }] =
        .error (.nonNumeric "f1" ['a', 'b']) :=
  ⟨by decide, by rfl⟩

/-- C7 (amended): when some field's slice runs past the end of the frame
the parse of the whole frame fails as a unit with a returned error (never an
exception); the error is FrameTooShort exactly when every field before the
overrunning one parses successfully; and the frame counts as one failed
attempt (one attempt, zero successes) in the aggregate statistics. -/
theorem frame_too_short_unit_failure :
    (∀ (raw : List Char) (fields : List ProtocolField),
      (∃ f ∈ fields, raw.length < f.start + f.length) →
      ∃ e, parseWithTemplate raw fields = .error e) ∧
    (∀ (raw : List Char) (pre : List ProtocolField) (f : ProtocolField)
        (post : List ProtocolField) (ps : List (String × FieldValue)),
      parseWithTemplate raw pre = .ok ps →
      raw.length < f.start + f.length →
      parseWithTemplate raw (pre ++ f :: post) =
        .error (.dataTooShort f.name)) ∧
    (∀ (tmpl : ProtocolTemplate) (entry : Entry),
      (∃ f ∈ tmpl.fields, entry.data.length < f.start + f.length) →
      (analyzeTemplateMatch tmpl [entry]).total_attempts = 1 ∧
      (analyzeTemplateMatch tmpl [entry]).successful_parses = 0) := by
  refine ⟨fun raw fields h => parse_fails_of_overrun fields raw h, ?_, ?_⟩
  · intro raw pre f post ps hok hov
    have hpost : parseWithTemplate raw (f :: post) =
        .error (.dataTooShort f.name) := by
      simp only [parseWithTemplate, if_neg (by omega : ¬ f.start + f.length ≤ raw.length)]
    exact parse_append_error pre raw ps (f :: post) _ hok hpost
  · intro tmpl entry h
    obtain ⟨e, he⟩ := parse_fails_of_overrun tmpl.fields entry.data h
    have hpk : parseOk (parseWithTemplate entry.data tmpl.fields) = false := by
      rw [he]; rfl
    constructor
    · rfl
    · simp only [analyzeTemplateMatch, List.filter_cons, hpk, List.filter_nil]
      rfl

/-- Witness for C7 at an 8-character frame against the overrunning field. -/
theorem frame_too_short_unit_failure_witness :
    (parseWithTemplate "12345678".toList [c7Field] =
        .error (.dataTooShort "f")) ∧
      (analyzeTemplateMatch c7Tmpl [Entry.mk "12345678".toList 0]).total_attempts
          = 1 ∧
      (analyzeTemplateMatch c7Tmpl
          [Entry.mk "12345678".toList 0]).successful_parses = 0 := by
  refine ⟨?_, ?_⟩
  · have h := frame_too_short_unit_failure.2.1 "12345678".toList []
      c7Field [] [] rfl (by decide)
    simpa using h
  · exact frame_too_short_unit_failure.2.2 c7Tmpl
      (Entry.mk "12345678".toList 0) (by decide)

end AdamScale

namespace AdamScale

theorem c3_data_consistency : checkDataConsistency c3Frames = 90 := by
  have h1 : c3Frames.map (fun e => ((e.data.length : ℚ))) = [8, 8, 8] := by
    norm_num [c3Frames]
  have h2 : c3Frames.length = 3 := by decide
  simp only [checkDataConsistency, h1, h2]
  norm_num

theorem c3_format_match : checkFormatCharacteristics c3Frames c3Template = 100 := by
  have h1 : (c3Frames.filter fun e =>
      containsSub (trim (unescapeDelimiter c3Template.delimiter)) e.data ||
        !(trim e.data).isEmpty).length = 3 := by decide
  have h2 : c3Frames.length = 3 := by decide
  simp only [checkFormatCharacteristics, h1, h2]
  norm_num

theorem c3_parse_count : (c3Frames.filter fun e =>
    parseOk (parseWithTemplate e.data c3Template.fields)).length = 3 := by decide

end AdamScale

namespace AdamScale

/-- C3: in the worked scenario (single numeric field start 0 length 6, three
CRLF-terminated 8-character frames), all three frames parse, the parse
success rate is 100, the zero length-variance gives data consistency 90, the
format match is 100, and the overall confidence is exactly 98. -/
theorem template_scenario_confidence :
    (analyzeTemplateMatch c3Template c3Frames).successful_parses = 3 ∧
      (analyzeTemplateMatch c3Template c3Frames).total_attempts = 3 ∧
      ((analyzeTemplateMatch c3Template c3Frames).successful_parses : ℚ) /
          ((analyzeTemplateMatch c3Template c3Frames).total_attempts : ℚ) * 100
        = 100 ∧
      checkDataConsistency c3Frames = 90 ∧
      checkFormatCharacteristics c3Frames c3Template = 100 ∧
      (analyzeTemplateMatch c3Template c3Frames).confidence = 98 := by
  have hs : (analyzeTemplateMatch c3Template c3Frames).successful_parses = 3 := by
    simp only [analyzeTemplateMatch, c3_parse_count]
  have ht : (analyzeTemplateMatch c3Template c3Frames).total_attempts = 3 := by
    decide
  refine ⟨hs, ht, ?_, c3_data_consistency, c3_format_match, ?_⟩
  · rw [hs, ht]
    norm_num
  · rw [analyze_confidence_eq]
    have h2 : c3Frames.length = 3 := by decide
    simp only [c3_parse_count, h2, c3_data_consistency, c3_format_match,
      overallConfidence]
    norm_num

end AdamScale
